import Mathlib

/-!
Verification of the werewolf-state-machine repository.

Shallow embedding of:
* `src/forum/worlds/werewolf/__init__.py` — game state (`Werewolf`), roles,
  phases, `winner`, `kill`, `from_roles`, `learn_identity`;
* `src/forum/worlds/werewolf/machine.py` — `WerewolfMachine` (phase state
  machine, `dispatch`, night/day phase bodies);
* `src/state.py` and `src/werewolf.py` — the simpler `WerewolfState` /
  phase-only machine variant;
* `src/forum/messaging/message.py` — the typed message codec.

Python dicts are modelled as insertion-ordered association lists, Python sets
of ints as `Finset Nat`, machine integers as `Nat`/`Int` (no overflow is
possible in the modelled code paths), and fallible code returns `Option` /
`Except`.
-/

namespace WW

/-- `Phase` StrEnum of `forum/worlds/werewolf/__init__.py`. -/
inductive Phase
  | Start
  | Night
  | Day
  | End
deriving DecidableEq, Repr

/-- `Role` StrEnum. -/
inductive Role
  | Werewolf
  | Villager
  | Seer
  | Doctor
deriving DecidableEq, Repr

/-- `Team` StrEnum. -/
inductive Team
  | Werewolves
  | Villagers
deriving DecidableEq, Repr

/-- `Team.roles` property: the set of roles belonging to a team. -/
def Team.roles : Team → Finset Role
  | Team.Werewolves => {Role.Werewolf}
  | Team.Villagers => {Role.Villager, Role.Seer, Role.Doctor}

/-- The `Werewolf` game-state message.  `known_identity` and the per-round
vote maps are Python dicts, modelled as insertion-ordered association lists;
`known_identity` values are Python sets, modelled as `Finset Nat`.  Vote maps
take `Option Nat` values (`AgentIndex | None`). -/
structure Werewolf where
  day : Nat := 1
  phase : Phase := Phase.Start
  roles : List Role
  alive : List Bool
  known_identity : List (Nat × Finset Nat)
  voted : List (List (Nat × Option Nat)) := []
deriving DecidableEq

namespace Werewolf

/-- `Werewolf.survivors(*role_filters)`: the set of live agent indices whose
role is in the union of the filters (all live agents when no filter is
given).  Filters may be roles or teams; a team contributes `Team.roles`. -/
def survivors (g : Werewolf) (role_filters : List (Role ⊕ Team)) : Finset Nat :=
  let counted_roles : Finset Role :=
    role_filters.foldl
      (fun acc f =>
        match f with
        | Sum.inl r => insert r acc
        | Sum.inr t => acc ∪ t.roles)
      ∅
  ((List.range g.roles.length).filter
    (fun i =>
      g.alive.get? i = some true ∧
        (role_filters = [] ∨ g.roles.get? i ∈ counted_roles.image some))).toFinset

/-- `Werewolf.winner` computed field: `Villagers` when no werewolf survives,
`Werewolves` when surviving villager-team members are no more numerous than
surviving werewolves, else no winner. -/
def winner (g : Werewolf) : Option Team :=
  let werewolves := (g.survivors [Sum.inr Team.Werewolves]).card
  if werewolves = 0 then some Team.Villagers
  else
    let villagers := (g.survivors [Sum.inr Team.Villagers]).card
    if villagers ≤ werewolves then some Team.Werewolves
    else none

/-- `Werewolf.kill(agent)`: sets `alive[agent] = False`.  Python raises
`IndexError` out of range, hence the `Option` result. -/
def kill (g : Werewolf) (agent : Nat) : Option Werewolf :=
  if agent < g.alive.length then
    some { g with alive := g.alive.set agent false }
  else none

/-- Lookup in an insertion-ordered dict (first matching key). -/
def dictGet (d : List (Nat × Finset Nat)) (k : Nat) : Option (Finset Nat) :=
  match d with
  | [] => none
  | (k₀, v) :: rest => if k₀ = k then some v else dictGet rest k

/-- In-place update of a dict value, keeping key order (Python dict update
semantics); no-op when the key is absent. -/
def dictMap (d : List (Nat × Finset Nat)) (k : Nat) (f : Finset Nat → Finset Nat) :
    List (Nat × Finset Nat) :=
  match d with
  | [] => []
  | (k₀, v) :: rest => if k₀ = k then (k₀, f v) :: rest else (k₀, v) :: dictMap rest k f

/-- `Werewolf.learn_identity(knower, known)`:
`known_identity[knower].add(known)`.  Python raises `KeyError` for an absent
knower key, hence the `Option`. -/
def learn_identity (g : Werewolf) (knower known : Nat) : Option Werewolf :=
  match dictGet g.known_identity knower with
  | none => none
  | some _ =>
      some { g with known_identity := dictMap g.known_identity knower (insert known) }

/-- `Werewolf.from_roles(*roles)`: all alive, everyone knows themselves, each
werewolf additionally knows all werewolves. -/
def from_roles (roles : List Role) : Werewolf :=
  let n := roles.length
  let alive := List.replicate n true
  let known0 := (List.range n).map (fun i => (i, ({i} : Finset Nat)))
  let werewolves :=
    ((List.range n).filter (fun i => roles.get? i = some Role.Werewolf)).toFinset
  let known :=
    (werewolves.sort (· ≤ ·)).foldl (fun kn w => dictMap kn w (fun s => s ∪ werewolves)) known0
  { day := 1, phase := Phase.Start, roles := roles, alive := alive,
    known_identity := known, voted := [] }

end Werewolf

/-- `statemachine.exceptions.TransitionError`, raised when an event has no
transition from the current state. -/
structure TransitionError where
deriving DecidableEq

/-- `WerewolfMachine.next` (machine.py): `start.to(night) | night.to(day) |
day.to(night)`. -/
def machineNext : Phase → Except TransitionError Phase
  | Phase.Start => Except.ok Phase.Night
  | Phase.Night => Except.ok Phase.Day
  | Phase.Day => Except.ok Phase.Night
  | Phase.End => Except.error {}

/-- `WerewolfMachine.finish` (machine.py): `night.to(end) | day.to(end)`. -/
def machineFinish : Phase → Except TransitionError Phase
  | Phase.Night => Except.ok Phase.End
  | Phase.Day => Except.ok Phase.End
  | _ => Except.error {}

end WW

namespace SM

/-- `Phase` of `state.py`. -/
inductive Phase
  | NIGHT
  | DAY
deriving DecidableEq, Repr

/-- `Role` of `state.py`. -/
inductive Role
  | WEREWOLF
  | SEER
  | VILLAGER
  | DOCTOR
deriving DecidableEq, Repr

/-- `Winner` of `state.py`. -/
inductive Winner
  | WEREWOLVES
  | VILLAGERS
  | NONE
deriving DecidableEq, Repr

/-- `WerewolfState` of `state.py`.  `roles` is a Python dict (insertion-ordered
association list), `alive_players` a Python set. -/
structure WerewolfState where
  day : Nat := 1
  phase : Phase := Phase.NIGHT
  roles : List (String × Role)
  alive_players : Finset String
  known_roles : List (String × List (String × Role)) := []
deriving DecidableEq

/-- Dict lookup (first matching key). -/
def dictGet (d : List (String × Role)) (k : String) : Option Role :=
  match d with
  | [] => none
  | (k₀, v) :: rest => if k₀ = k then some v else dictGet rest k

namespace WerewolfState

/-- `WerewolfState.winner` computed field.  `alive_roles` lists the role of
each live player; villagers win with no live werewolves, werewolves win when
live werewolves are at least as numerous as the live others.  A live player
missing from `roles` raises `KeyError` in Python; theorems only apply the
model where every live player has a role. -/
def winner (s : WerewolfState) : Winner :=
  let werewolves :=
    (s.alive_players.filter (fun p => dictGet s.roles p = some Role.WEREWOLF)).card
  let non_werewolves := s.alive_players.card - werewolves
  if werewolves = 0 then Winner.VILLAGERS
  else if non_werewolves ≤ werewolves then Winner.WEREWOLVES
  else Winner.NONE

end WerewolfState

/-- States of the phase-only `WerewolfMachine` of `werewolf.py`. -/
inductive MState
  | night
  | day
  | finished_state
deriving DecidableEq, Repr

/-- `WerewolfMachine.next` (werewolf.py): `night.to(day) | day.to(night)`. -/
def machineNext : MState → Except WW.TransitionError MState
  | MState.night => Except.ok MState.day
  | MState.day => Except.ok MState.night
  | MState.finished_state => Except.error {}

/-- `WerewolfMachine.finish` (werewolf.py):
`night.to(finished_state) | day.to(finished_state)`. -/
def machineFinish : MState → Except WW.TransitionError MState
  | MState.night => Except.ok MState.finished_state
  | MState.day => Except.ok MState.finished_state
  | MState.finished_state => Except.error {}

end SM

namespace WW
namespace Werewolf

theorem mem_survivors_nil (g : Werewolf) (i : Nat) :
    i ∈ g.survivors [] ↔ i < g.roles.length ∧ g.alive.get? i = some true := by
  simp [survivors]

theorem mem_survivors_ww (g : Werewolf) (i : Nat) :
    i ∈ g.survivors [Sum.inr Team.Werewolves] ↔
      i < g.roles.length ∧ g.alive.get? i = some true ∧
        g.roles.get? i = some Role.Werewolf := by
  simp [survivors, Team.roles, and_assoc]

theorem mem_survivors_vill (g : Werewolf) (i : Nat) :
    i ∈ g.survivors [Sum.inr Team.Villagers] ↔
      i < g.roles.length ∧ g.alive.get? i = some true ∧
        (g.roles.get? i = some Role.Villager ∨ g.roles.get? i = some Role.Seer ∨
          g.roles.get? i = some Role.Doctor) := by
  simp [survivors, Team.roles, and_assoc]

theorem survivors_partition (g : Werewolf) :
    g.survivors [] =
      g.survivors [Sum.inr Team.Werewolves] ∪ g.survivors [Sum.inr Team.Villagers] := by
  ext i
  simp only [Finset.mem_union, mem_survivors_nil, mem_survivors_ww, mem_survivors_vill]
  constructor
  · rintro ⟨hi, ha⟩
    have hr : ∃ r, g.roles.get? i = some r := by
      rw [List.get?_eq_get hi]; exact ⟨_, rfl⟩
    obtain ⟨r, hr⟩ := hr
    cases r with
    | Werewolf => exact Or.inl ⟨hi, ha, hr⟩
    | Villager => exact Or.inr ⟨hi, ha, Or.inl hr⟩
    | Seer => exact Or.inr ⟨hi, ha, Or.inr (Or.inl hr)⟩
    | Doctor => exact Or.inr ⟨hi, ha, Or.inr (Or.inr hr)⟩
  · rintro (⟨hi, ha, _⟩ | ⟨hi, ha, _⟩) <;> exact ⟨hi, ha⟩

theorem survivors_disjoint (g : Werewolf) :
    Disjoint (g.survivors [Sum.inr Team.Werewolves]) (g.survivors [Sum.inr Team.Villagers]) := by
  rw [Finset.disjoint_left]
  intro i hw hv
  rw [mem_survivors_ww] at hw
  rw [mem_survivors_vill] at hv
  rcases hv.2.2 with h | h | h <;> rw [hw.2.2] at h <;> simp at h

theorem card_survivors_split (g : Werewolf) :
    (g.survivors []).card =
      (g.survivors [Sum.inr Team.Werewolves]).card +
        (g.survivors [Sum.inr Team.Villagers]).card := by
  rw [survivors_partition, Finset.card_union_of_disjoint (survivors_disjoint g)]

end Werewolf
end WW

/-- C3: in both winner computations, with `A` the alive set and `w` its
living werewolves, the villager side wins iff `w = 0`, the werewolf side wins
iff `0 < w` and `w ≥ |A| - w`, and there is no winner otherwise. -/
theorem C3_winner_characterization (g : WW.Werewolf) (s : SM.WerewolfState)
    (hs : ∀ p ∈ s.alive_players, (SM.dictGet s.roles p).isSome) :
    ((g.winner = some WW.Team.Villagers ↔
        (g.survivors [Sum.inr WW.Team.Werewolves]).card = 0) ∧
      (g.winner = some WW.Team.Werewolves ↔
        0 < (g.survivors [Sum.inr WW.Team.Werewolves]).card ∧
          (g.survivors []).card - (g.survivors [Sum.inr WW.Team.Werewolves]).card ≤
            (g.survivors [Sum.inr WW.Team.Werewolves]).card) ∧
      (g.winner = none ↔
        0 < (g.survivors [Sum.inr WW.Team.Werewolves]).card ∧
          (g.survivors [Sum.inr WW.Team.Werewolves]).card <
            (g.survivors []).card - (g.survivors [Sum.inr WW.Team.Werewolves]).card)) ∧
    ((s.winner = SM.Winner.VILLAGERS ↔
        (s.alive_players.filter (fun p => SM.dictGet s.roles p = some SM.Role.WEREWOLF)).card
          = 0) ∧
      (s.winner = SM.Winner.WEREWOLVES ↔
        0 < (s.alive_players.filter
              (fun p => SM.dictGet s.roles p = some SM.Role.WEREWOLF)).card ∧
          s.alive_players.card -
              (s.alive_players.filter
                (fun p => SM.dictGet s.roles p = some SM.Role.WEREWOLF)).card ≤
            (s.alive_players.filter
              (fun p => SM.dictGet s.roles p = some SM.Role.WEREWOLF)).card) ∧
      (s.winner = SM.Winner.NONE ↔
        0 < (s.alive_players.filter
              (fun p => SM.dictGet s.roles p = some SM.Role.WEREWOLF)).card ∧
          (s.alive_players.filter
              (fun p => SM.dictGet s.roles p = some SM.Role.WEREWOLF)).card <
            s.alive_players.card -
              (s.alive_players.filter
                (fun p => SM.dictGet s.roles p = some SM.Role.WEREWOLF)).card)) := by
  constructor
  · have hsplit := WW.Werewolf.card_survivors_split g
    unfold WW.Werewolf.winner
    set w := (g.survivors [Sum.inr WW.Team.Werewolves]).card with hw
    set v := (g.survivors [Sum.inr WW.Team.Villagers]).card with hv
    have hAv : (g.survivors []).card - w = v := by omega
    rw [hAv]
    by_cases h0 : w = 0
    · simp [h0]
    · by_cases hle : v ≤ w <;> simp [h0, hle] <;> omega
  · unfold SM.WerewolfState.winner
    set w := (s.alive_players.filter
      (fun p => SM.dictGet s.roles p = some SM.Role.WEREWOLF)).card with hw
    have hwA : w ≤ s.alive_players.card := Finset.card_filter_le _ _
    by_cases h0 : w = 0
    · simp [h0]
    · by_cases hle : s.alive_players.card - w ≤ w <;> simp [h0, hle] <;> omega

namespace WW
namespace Werewolf

theorem list_set_get?_self {α : Type} :
    ∀ (l : List α) (i : Nat) (a : α), l.get? i = some a → l.set i a = l
  | [], _, _, h => by simp at h
  | x :: xs, 0, a, h => by simp at h; simp [h]
  | x :: xs, i + 1, a, h => by
      simp only [List.get?] at h
      simp [List.set, list_set_get?_self xs i a h]

theorem get?_replicate_lt {α : Type} (a : α) :
    ∀ (n i : Nat), i < n → (List.replicate n a).get? i = some a
  | 0, _, h => by omega
  | n + 1, 0, _ => by simp [List.replicate]
  | n + 1, i + 1, h => by
      simp only [List.replicate, List.get?]
      exact get?_replicate_lt a n i (by omega)

theorem dictGet_dictMap (d : List (Nat × Finset Nat)) (k j : Nat)
    (f : Finset Nat → Finset Nat) :
    dictGet (dictMap d k f) j =
      if j = k then (dictGet d j).map f else dictGet d j := by
  induction d with
  | nil => simp [dictGet, dictMap]
  | cons hd tl ih =>
      obtain ⟨k₀, v⟩ := hd
      by_cases hk : k₀ = k
      · subst hk
        by_cases hj : k₀ = j
        · subst hj
          simp [dictGet, dictMap]
        · have hj' : ¬ j = k₀ := fun hc => hj hc.symm
          simp [dictGet, dictMap, hj, hj']
      · by_cases hj : k₀ = j
        · subst hj
          have hj' : ¬ k₀ = k := hk
          simp [dictGet, dictMap, hk, fun hc : k₀ = k => hk hc]
        · simp [dictGet, dictMap, hk, hj, ih]

theorem dictGet_fold_dictMap (ws : List Nat) (f : Finset Nat → Finset Nat) :
    ∀ (kn : List (Nat × Finset Nat)) (j : Nat), ws.Nodup →
      dictGet (ws.foldl (fun kn w => dictMap kn w f) kn) j =
        if j ∈ ws then (dictGet kn j).map f else dictGet kn j := by
  induction ws with
  | nil => simp
  | cons w ws ih =>
      intro kn j hnd
      simp only [List.foldl_cons]
      rw [ih _ j (List.nodup_cons.mp hnd).2, dictGet_dictMap]
      by_cases hjw : j = w
      · subst hjw
        simp [(List.nodup_cons.mp hnd).1]
      · simp [hjw, List.mem_cons]

theorem dictGet_map_key (f : Nat → Finset Nat) :
    ∀ (l : List Nat) (j : Nat),
      dictGet (l.map (fun i => (i, f i))) j = if j ∈ l then some (f j) else none := by
  intro l
  induction l with
  | nil => simp [dictGet]
  | cons i l ih =>
      intro j
      by_cases hij : i = j
      · subst hij
        simp [dictGet]
      · have hji : ¬ j = i := fun hc => hij hc.symm
        simp [dictGet, hij, hji, ih, List.mem_cons]

end Werewolf
end WW

/-- C9: `kill(i)` with `i` in range sets `alive[i]` to `False` and changes
nothing else — all other fields and every other alive flag are unchanged —
and killing an already-dead agent leaves the state identical (idempotent). -/
theorem C9_kill_frame (g g' : WW.Werewolf) (i : Nat) (h : WW.Werewolf.kill g i = some g') :
    g'.alive.get? i = some false ∧
    (∀ j, j ≠ i → g'.alive.get? j = g.alive.get? j) ∧
    g'.roles = g.roles ∧ g'.known_identity = g.known_identity ∧
    g'.voted = g.voted ∧ g'.day = g.day ∧ g'.phase = g.phase ∧
    (g.alive.get? i = some false → g' = g) ∧
    WW.Werewolf.kill g' i = some g' := by
  unfold WW.Werewolf.kill at h
  by_cases hlt : i < g.alive.length
  · simp only [hlt, if_pos, Option.some.injEq] at h
    subst h
    refine ⟨?_, ?_, rfl, rfl, rfl, rfl, rfl, ?_, ?_⟩
    · rw [List.get?_set_eq, List.get?_eq_get hlt]
      rfl
    · intro j hj
      exact List.get?_set_ne _ _ (fun hc => hj hc.symm)
    · intro hdead
      simp [WW.Werewolf.list_set_get?_self _ _ _ hdead]
    · unfold WW.Werewolf.kill
      simp only [List.length_set, hlt, if_pos]
      rw [List.set_set]
  · simp [hlt] at h

/-- C10: `from_roles` makes every agent alive; every agent knows its own
index; a werewolf's known identities are exactly itself together with all
werewolf indices; any other agent knows only itself. -/
theorem C10_from_roles (roles : List WW.Role) (i : Nat) (h : i < roles.length) :
    (WW.Werewolf.from_roles roles).alive.get? i = some true ∧
    (∃ s, WW.Werewolf.dictGet (WW.Werewolf.from_roles roles).known_identity i = some s ∧
      i ∈ s ∧
      (roles.get? i = some WW.Role.Werewolf →
        s = {i} ∪ ((List.range roles.length).filter
          (fun j => roles.get? j = some WW.Role.Werewolf)).toFinset) ∧
      (roles.get? i ≠ some WW.Role.Werewolf → s = {i})) := by
  have halive : (WW.Werewolf.from_roles roles).alive = List.replicate roles.length true := rfl
  have hknown : (WW.Werewolf.from_roles roles).known_identity =
      ((((List.range roles.length).filter
          (fun j => roles.get? j = some WW.Role.Werewolf)).toFinset.sort (· ≤ ·)).foldl
        (fun kn w => WW.Werewolf.dictMap kn w
          (fun s => s ∪ ((List.range roles.length).filter
            (fun j => roles.get? j = some WW.Role.Werewolf)).toFinset))
        ((List.range roles.length).map (fun i => (i, ({i} : Finset Nat))))) := rfl
  constructor
  · rw [halive]
    exact WW.Werewolf.get?_replicate_lt true _ i h
  · rw [hknown]
    rw [WW.Werewolf.dictGet_fold_dictMap _ _ _ i (Finset.sort_nodup _ _)]
    rw [WW.Werewolf.dictGet_map_key]
    rw [if_pos (List.mem_range.mpr h)]
    have hmem : i ∈ ((List.range roles.length).filter
        (fun j => roles.get? j = some WW.Role.Werewolf)).toFinset.sort (· ≤ ·) ↔
          roles.get? i = some WW.Role.Werewolf := by
      rw [Finset.mem_sort, List.mem_toFinset, List.mem_filter]
      simp [List.mem_range.mpr h]
    by_cases hw : roles.get? i = some WW.Role.Werewolf
    · rw [if_pos (hmem.mpr hw)]
      refine ⟨_, rfl, ?_, fun _ => rfl, fun hc => absurd hw hc⟩
      simp
    · rw [if_neg (fun hc => hw (hmem.mp hc))]
      exact ⟨_, rfl, Finset.mem_singleton_self i, fun hc => absurd hc hw, fun _ => rfl⟩

namespace WW

/-- The `Action` message: `selector` (the acting agent) chose `selected`. -/
structure Action where
  selector : Nat
  selected : Nat
deriving DecidableEq, Repr

/-- `WerewolfMachine.dispatch`: repeatedly take the next action from the
shared intake queue; return it when its `selector` is the requested agent,
otherwise put it back at the end of the queue.  The Python loop blocks on an
`asyncio.Queue`; over a queue already holding the round's actions it is this
fuelled loop, and fuel `q.length` reaches any matching action present. -/
def dispatch (agent : Nat) : Nat → List Action → Option (Action × List Action)
  | 0, _ => none
  | _ + 1, [] => none
  | fuel + 1, a :: rest =>
      if a.selector = agent then some (a, rest)
      else dispatch agent fuel (rest ++ [a])

theorem findIdx_append_of_exists {α : Type} (p : α → Bool) :
    ∀ (l l' : List α), (∃ x ∈ l, p x = true) → (l ++ l').findIdx p = l.findIdx p := by
  intro l l'
  induction l with
  | nil => rintro ⟨x, hx, _⟩; cases hx
  | cons a as ih =>
      rintro ⟨x, hx, hpx⟩
      simp only [List.cons_append, List.findIdx_cons]
      cases hpa : p a with
      | true => rfl
      | false =>
          have hrest : ∃ y ∈ as, p y = true := by
            rcases List.mem_cons.mp hx with rfl | h
            · rw [hpa] at hpx; cases hpx
            · exact ⟨x, h, hpx⟩
          simp only [cond_false, ih hrest]

theorem dispatch_isSome (agent : Nat) :
    ∀ (fuel : Nat) (q : List Action), (∃ x ∈ q, x.selector = agent) →
      q.findIdx (fun x => x.selector == agent) < fuel →
      (dispatch agent fuel q).isSome := by
  intro fuel
  induction fuel with
  | zero => intro q _ h; omega
  | succ fuel ih =>
      intro q hex hidx
      match q with
      | [] =>
          rcases hex with ⟨x, hx, _⟩
          cases hx
      | a :: rest =>
          by_cases ha : a.selector = agent
          · simp [dispatch, ha]
          · have hex' : ∃ x ∈ rest, x.selector = agent := by
              rcases hex with ⟨x, hx, hsel⟩
              rcases List.mem_cons.mp hx with rfl | h
              · exact absurd hsel ha
              · exact ⟨x, h, hsel⟩
            have hexb : ∃ x ∈ rest, (fun y => y.selector == agent) x = true := by
              rcases hex' with ⟨x, hx, hsel⟩
              exact ⟨x, hx, beq_iff_eq.mpr hsel⟩
            have hcons : (a :: rest).findIdx (fun x => x.selector == agent) =
                rest.findIdx (fun x => x.selector == agent) + 1 := by
              rw [List.findIdx_cons]
              have : (a.selector == agent) = false := beq_eq_false_iff_ne.mpr ha
              simp [this]
            rw [hcons] at hidx
            simp only [dispatch, ha, if_neg, if_false]
            have hexapp : ∃ x ∈ rest ++ [a], x.selector = agent := by
              rcases hex' with ⟨x, hx, hsel⟩
              exact ⟨x, List.mem_append_left _ hx, hsel⟩
            have hidxapp :
                (rest ++ [a]).findIdx (fun x => x.selector == agent) < fuel := by
              rw [findIdx_append_of_exists _ _ _ hexb]
              omega
            exact ih (rest ++ [a]) hexapp hidxapp

end WW

/-- C1: whenever `dispatch(agent, observation)` returns an action, that
action's `selector` equals `agent`, and the returned action together with the
remaining queue is a permutation of the original intake queue — actions of
other agents are put back, never dropped. -/
theorem C1_dispatch_matches_selector_and_drops_nothing
    (agent fuel : Nat) (q q' : List WW.Action) (act : WW.Action)
    (h : WW.dispatch agent fuel q = some (act, q')) :
    act.selector = agent ∧ (act :: q').Perm q := by
  induction fuel generalizing q with
  | zero => cases h
  | succ fuel ih =>
      match q with
      | [] => cases h
      | a :: rest =>
          by_cases ha : a.selector = agent
          · simp only [WW.dispatch, ha, if_pos, Option.some.injEq, Prod.mk.injEq] at h
            obtain ⟨rfl, rfl⟩ := h
            exact ⟨ha, List.Perm.refl _⟩
          · simp only [WW.dispatch, ha, if_neg, if_false] at h
            obtain ⟨hsel, hperm⟩ := ih _ h
            exact ⟨hsel, hperm.trans (List.perm_append_singleton a rest)⟩

theorem C1_dispatch_matches_selector_and_drops_nothing_witness :
    WW.dispatch 1 2 [⟨0, 2⟩, ⟨1, 0⟩] = some (⟨1, 0⟩, [⟨0, 2⟩]) ∧
      (WW.Action.mk 1 0).selector = 1 ∧
      ([WW.Action.mk 1 0, WW.Action.mk 0 2] : List WW.Action).Perm
        [WW.Action.mk 0 2, WW.Action.mk 1 0] :=
  ⟨rfl, C1_dispatch_matches_selector_and_drops_nothing 1 2 _ _ _ rfl⟩

namespace WW

/-- The per-round collection loop shared by `_phase_night` and `_phase_day`
(`collect_round` in the spec): dispatch each active agent in order and record
`votes[action.selector] = action.selected`. -/
def collectRound : List Nat → List Action → Option (List (Nat × Nat))
  | [], _ => some []
  | a :: rest, q =>
      match dispatch a q.length q with
      | none => none
      | some (act, q') =>
          match collectRound rest q' with
          | none => none
          | some votes => some ((act.selector, act.selected) :: votes)

end WW

/-- C6: when each of the round's (pairwise distinct) active agents has sent
exactly one action, `collect_round` returns the same selector-to-selected
mapping for every permutation of the arrival order on the intake queue —
namely the canonical mapping listed in agent order, which is also what
agent-index-ordered arrivals produce. -/
theorem C6_collect_round_order_independent
    (agents : List Nat) (f : Nat → Nat) (q : List WW.Action)
    (hnd : agents.Nodup)
    (hq : q.Perm (agents.map (fun a => WW.Action.mk a (f a)))) :
    WW.collectRound agents q = some (agents.map (fun a => (a, f a))) := by
  induction agents generalizing q with
  | nil => simp [WW.collectRound]
  | cons a rest ih =>
      have hex : ∃ x ∈ q, x.selector = a := by
        refine ⟨WW.Action.mk a (f a), ?_, rfl⟩
        exact hq.mem_iff.mpr (by simp)
      have hexb : ∃ x ∈ q, (fun y : WW.Action => y.selector == a) x = true := by
        rcases hex with ⟨x, hx, hsel⟩
        exact ⟨x, hx, beq_iff_eq.mpr hsel⟩
      have hidx := List.findIdx_lt_length_of_exists hexb
      have hsome := WW.dispatch_isSome a q.length q hex hidx
      obtain ⟨⟨act, q'⟩, hdisp⟩ := Option.isSome_iff_exists.mp hsome
      obtain ⟨hsel, hperm⟩ :=
        C1_dispatch_matches_selector_and_drops_nothing a q.length q q' act hdisp
      have hact : act = WW.Action.mk a (f a) := by
        have hmem : act ∈ q := hperm.mem_iff.mp (List.mem_cons_self _ _)
        have := hq.mem_iff.mp hmem
        simp only [List.map_cons, List.mem_cons, List.mem_map] at this
        rcases this with rfl | ⟨b, hb, hba⟩
        · rfl
        · exfalso
          have : b = a := by rw [← hba] at hsel; exact hsel
          subst this
          exact (List.nodup_cons.mp hnd).1 hb
      have hq' : q'.Perm (rest.map (fun b => WW.Action.mk b (f b))) := by
        have : (act :: q').Perm
            (WW.Action.mk a (f a) :: rest.map (fun b => WW.Action.mk b (f b))) :=
          hperm.trans (by simpa using hq)
        rw [hact] at this
        exact this.cons_inv
      simp only [WW.collectRound, hdisp]
      rw [ih q' (List.nodup_cons.mp hnd).2 hq']
      rw [hact]
      simp

theorem C6_collect_round_order_independent_witness :
    ([0, 1] : List Nat).Nodup ∧
      WW.collectRound [0, 1] [⟨1, 0⟩, ⟨0, 1⟩] = some [(0, 1), (1, 0)] := by
  refine ⟨by decide, ?_⟩
  have h := C6_collect_round_order_independent [0, 1]
    (fun a => 1 - a) [⟨1, 0⟩, ⟨0, 1⟩] (by decide) (by decide)
  simpa using h

/-- A concrete three-player game used to instantiate theorems. -/
def gEx : WW.Werewolf :=
  { roles := [WW.Role.Werewolf, WW.Role.Seer, WW.Role.Villager],
    alive := [true, true, true],
    known_identity := [(0, {0}), (1, {1}), (2, {2})] }

/-- `gEx` after `kill(2)`. -/
def gExKilled : WW.Werewolf := { gEx with alive := [true, true, false] }

/-- The result of `gEx4`'s day round with votes `[2, 2, 0, 2]`. -/
def gEx4Day : WW.Werewolf :=
  { roles := [WW.Role.Werewolf, WW.Role.Seer, WW.Role.Doctor, WW.Role.Villager],
    alive := [true, true, false, true],
    known_identity := [(0, {0}), (1, {1}), (2, {2}), (3, {3})],
    voted := [[(0, some 2), (1, some 2), (2, some 0), (3, some 2)]],
    day := 2 }

/-- A concrete four-player game used to instantiate theorems. -/
def gEx4 : WW.Werewolf :=
  { roles := [WW.Role.Werewolf, WW.Role.Seer, WW.Role.Doctor, WW.Role.Villager],
    alive := [true, true, true, true],
    known_identity := [(0, {0}), (1, {1}), (2, {2}), (3, {3})] }

/-- A concrete two-player `WerewolfState` used to instantiate theorems. -/
def sEx : SM.WerewolfState :=
  { roles := [("alice", SM.Role.WEREWOLF), ("bob", SM.Role.VILLAGER)],
    alive_players := {"alice", "bob"} }

theorem C3_winner_characterization_witness :
    (∀ p ∈ sEx.alive_players, (SM.dictGet sEx.roles p).isSome) ∧
      (gEx.winner = some WW.Team.Villagers ↔
        (gEx.survivors [Sum.inr WW.Team.Werewolves]).card = 0) :=
  ⟨by decide, (C3_winner_characterization gEx sEx (by decide)).1.1⟩

theorem C9_kill_frame_witness :
    WW.Werewolf.kill gEx 2 = some gExKilled ∧
      gExKilled.alive.get? 2 = some false ∧ gExKilled.roles = gEx.roles :=
  ⟨rfl, (C9_kill_frame gEx gExKilled 2 rfl).1, (C9_kill_frame gEx gExKilled 2 rfl).2.2.1⟩

theorem C10_from_roles_witness :
    0 < ([WW.Role.Werewolf, WW.Role.Villager] : List WW.Role).length ∧
      (WW.Werewolf.from_roles [WW.Role.Werewolf, WW.Role.Villager]).alive.get? 0
        = some true :=
  ⟨by decide, (C10_from_roles [WW.Role.Werewolf, WW.Role.Villager] 0 (by decide)).1⟩

namespace WW

/-- Insertion-ordered key list of `Counter(vals)`: Python dict keys appear in
first-occurrence order. -/
def counterKeys (vals : List (Option Nat)) : List (Option Nat) :=
  vals.foldl (fun acc x => if x ∈ acc then acc else acc ++ [x]) []

/-- `Counter(vals).most_common(1)[0][0]`: a value with the highest
multiplicity.  CPython's `most_common(1)` is `heapq.nlargest(1)`, which is
`max` over the counter items in key first-occurrence order, and `max` keeps
the first maximum — so ties resolve to the value first encountered.  Empty
input gives `none` (Python would raise `IndexError`). -/
def mostCommon1 (vals : List (Option Nat)) : Option (Option Nat) :=
  match counterKeys vals with
  | [] => none
  | k :: ks =>
      some (ks.foldl (fun best x => if vals.count best < vals.count x then x else best) k)

/-- The state mutation at the end of `_phase_day` once the round's votes are
collected: append the vote map to history, eliminate
`Counter(votes.values()).most_common(1)[0][0]` when the map is nonempty and
that plurality value is not `None`, then advance the day counter.  (`kill`
can raise out of range, hence `Option`.) -/
def phase_day_apply (g : Werewolf) (votes : List (Nat × Option Nat)) : Option Werewolf :=
  let g1 : Werewolf := { g with voted := g.voted ++ [votes] }
  let g2 : Option Werewolf :=
    if votes = [] then some g1
    else
      match mostCommon1 (votes.map Prod.snd) with
      | some (some victim) => g1.kill victim
      | _ => some g1
  g2.map (fun g3 => { g3 with day := g3.day + 1 })

theorem mem_counterKeys_aux :
    ∀ (vals acc : List (Option Nat)) (y : Option Nat),
      y ∈ vals.foldl (fun acc x => if x ∈ acc then acc else acc ++ [x]) acc ↔
        y ∈ acc ∨ y ∈ vals := by
  intro vals
  induction vals with
  | nil => simp
  | cons v vs ih =>
      intro acc y
      simp only [List.foldl_cons]
      by_cases hv : v ∈ acc
      · rw [if_pos hv, ih]
        constructor
        · rintro (h | h)
          · exact Or.inl h
          · exact Or.inr (List.mem_cons_of_mem _ h)
        · rintro (h | h)
          · exact Or.inl h
          · rcases List.mem_cons.mp h with rfl | h
            · exact Or.inl hv
            · exact Or.inr h
      · rw [if_neg hv, ih]
        simp only [List.mem_append, List.mem_singleton, List.mem_cons]
        tauto

theorem mem_counterKeys (vals : List (Option Nat)) (y : Option Nat) :
    y ∈ counterKeys vals ↔ y ∈ vals := by
  rw [counterKeys, mem_counterKeys_aux]
  simp

theorem foldl_max_first (vals : List (Option Nat)) (x : Option Nat)
    (hmax : ∀ u, u ≠ x → vals.count u < vals.count x) :
    ∀ (ks : List (Option Nat)) (k : Option Nat), (x = k ∨ x ∈ ks) →
      ks.foldl (fun best y => if vals.count best < vals.count y then y else best) k = x := by
  intro ks
  induction ks with
  | nil =>
      intro k h
      rcases h with rfl | h
      · rfl
      · cases h
  | cons y ys ih =>
      intro k h
      simp only [List.foldl_cons]
      by_cases hky : vals.count k < vals.count y
      · rw [if_pos hky]
        apply ih
        rcases h with rfl | h
        · by_cases hyx : y = x
          · exact Or.inl hyx.symm
          · exact absurd (lt_trans hky (hmax y hyx)) (lt_irrefl _)
        · rcases List.mem_cons.mp h with rfl | hx
          · exact Or.inl rfl
          · exact Or.inr hx
      · rw [if_neg hky]
        apply ih
        rcases h with rfl | h
        · exact Or.inl rfl
        · rcases List.mem_cons.mp h with rfl | hx
          · by_cases hkx : k = x
            · exact Or.inl hkx.symm
            · exact absurd (hmax k hkx) (by omega)
          · exact Or.inr hx

/-- A strict plurality value is the one `most_common(1)` returns. -/
theorem mostCommon1_of_strict_max (vals : List (Option Nat)) (x : Option Nat)
    (hx : x ∈ vals)
    (hmax : ∀ u ∈ vals, u ≠ x → vals.count u < vals.count x) :
    mostCommon1 vals = some x := by
  have hmax' : ∀ u, u ≠ x → vals.count u < vals.count x := by
    intro u hu
    by_cases hmem : u ∈ vals
    · exact hmax u hmem hu
    · have h0 : vals.count u = 0 := List.count_eq_zero.mpr hmem
      have h1 : 0 < vals.count x := List.count_pos_iff_mem.mpr hx
      omega
  have hxk : x ∈ counterKeys vals := (mem_counterKeys vals x).mpr hx
  unfold mostCommon1
  match hck : counterKeys vals with
  | [] => rw [hck] at hxk; cases hxk
  | k :: ks =>
      rw [hck] at hxk
      rcases List.mem_cons.mp hxk with rfl | hx'
      · exact congrArg some (foldl_max_first vals x hmax' ks x (Or.inl rfl))
      · exact congrArg some (foldl_max_first vals x hmax' ks k (Or.inr hx'))

/-- Accumulator of `_phase_night`'s collection loop: the vote map under
construction, the werewolf's `pending_kill`, the doctor's protected agent,
and the game (mutated in place by seer reveals). -/
structure NightAcc where
  votes : List (Nat × Option Nat)
  pending_kill : Option Nat
  protectedAgent : Option Nat
  g : Werewolf
deriving DecidableEq

/-- `votes[selector] = selected` on an insertion-ordered dict: overwrite in
place, or append a new key. -/
def dictInsert (d : List (Nat × Option Nat)) (k : Nat) (v : Option Nat) :
    List (Nat × Option Nat) :=
  match d with
  | [] => [(k, v)]
  | (k₀, v₀) :: rest =>
      if k₀ = k then (k₀, v) :: rest else (k₀, v₀) :: dictInsert rest k v

/-- One iteration of `_phase_night`'s loop over a collected action: record
the vote, then branch on `game.roles[action.selector]` — a werewolf resets
the pending kill to its target, a seer learns the target's identity, a
doctor protects the target.  An out-of-range selector raises in Python,
hence `Option`. -/
def nightStep (st : NightAcc) (act : Action) : Option NightAcc :=
  let votes := dictInsert st.votes act.selector (some act.selected)
  match st.g.roles.get? act.selector with
  | none => none
  | some Role.Werewolf =>
      some { st with votes := votes, pending_kill := some act.selected }
  | some Role.Seer =>
      match st.g.learn_identity act.selector act.selected with
      | none => none
      | some g2 => some { st with votes := votes, g := g2 }
  | some Role.Doctor =>
      some { st with votes := votes, protectedAgent := some act.selected }
  | some Role.Villager => some { st with votes := votes }

/-- `_phase_night`'s for-loop over the round's actions in dispatch order. -/
def nightLoop : NightAcc → List Action → Option NightAcc
  | st, [] => some st
  | st, a :: rest =>
      match nightStep st a with
      | none => none
      | some st1 => nightLoop st1 rest

/-- The state mutation of `_phase_night` over the round's collected actions:
run the loop from an empty vote map and no pending kill or protection,
append the vote map to history, then resolve the pending kill unless the
target is the protected agent. -/
def phase_night_apply (g : Werewolf) (acts : List Action) : Option Werewolf :=
  match nightLoop ⟨[], none, none, g⟩ acts with
  | none => none
  | some st =>
      let g1 := { st.g with voted := st.g.voted ++ [st.votes] }
      match st.pending_kill with
      | some pk => if some pk ≠ st.protectedAgent then g1.kill pk else some g1
      | none => some g1

theorem learn_identity_eq (g g2 : Werewolf) (knower known : Nat)
    (h : g.learn_identity knower known = some g2) :
    g2 = { g with known_identity :=
      Werewolf.dictMap g.known_identity knower (insert known) } := by
  unfold Werewolf.learn_identity at h
  match hdg : Werewolf.dictGet g.known_identity knower with
  | none => rw [hdg] at h; cases h
  | some s =>
      rw [hdg] at h
      simp only [Option.some.injEq] at h
      exact h.symm

theorem nightLoop_spec :
    ∀ (acts : List Action) (st0 st1 : NightAcc),
      nightLoop st0 acts = some st1 →
      st1.g.roles = st0.g.roles ∧
      st1.g.alive = st0.g.alive ∧
      st1.g.voted = st0.g.voted ∧
      st1.g.day = st0.g.day ∧
      st1.g.phase = st0.g.phase ∧
      st1.pending_kill =
        ((acts.filter
            (fun a => st0.g.roles.get? a.selector = some Role.Werewolf)).foldl
          (fun _ a => some a.selected) st0.pending_kill) ∧
      st1.protectedAgent =
        ((acts.filter
            (fun a => st0.g.roles.get? a.selector = some Role.Doctor)).foldl
          (fun _ a => some a.selected) st0.protectedAgent) ∧
      st1.g.known_identity =
        ((acts.filter
            (fun a => st0.g.roles.get? a.selector = some Role.Seer)).foldl
          (fun kn a => Werewolf.dictMap kn a.selector (insert a.selected))
          st0.g.known_identity) := by
  intro acts
  induction acts with
  | nil =>
      intro st0 st1 h
      simp only [nightLoop, Option.some.injEq] at h
      subst h
      simp
  | cons a rest ih =>
      intro st0 st1 h
      simp only [nightLoop] at h
      match hstep : nightStep st0 a with
      | none => rw [hstep] at h; cases h
      | some stm =>
          rw [hstep] at h
          obtain ⟨hr, ha, hv, hd, hp, hpend, hprot, hknow⟩ := ih stm st1 h
          unfold nightStep at hstep
          match hrole : st0.g.roles.get? a.selector with
          | none => rw [hrole] at hstep; cases hstep
          | some Role.Werewolf =>
              rw [hrole] at hstep
              simp only [Option.some.injEq] at hstep
              subst hstep
              refine ⟨hr, ha, hv, hd, hp, ?_, ?_, ?_⟩
              · rw [hpend, List.filter_cons_of_pos (by rw [List.get?_eq_getElem?] at hrole; simp [hrole]),
                  List.filter_congr (fun x _ => rfl)]
                rfl
              · rw [hprot, List.filter_cons_of_neg (by rw [List.get?_eq_getElem?] at hrole; simp [hrole])]
              · rw [hknow, List.filter_cons_of_neg (by rw [List.get?_eq_getElem?] at hrole; simp [hrole])]
          | some Role.Villager =>
              rw [hrole] at hstep
              simp only [Option.some.injEq] at hstep
              subst hstep
              refine ⟨hr, ha, hv, hd, hp, ?_, ?_, ?_⟩
              · rw [hpend, List.filter_cons_of_neg (by rw [List.get?_eq_getElem?] at hrole; simp [hrole])]
              · rw [hprot, List.filter_cons_of_neg (by rw [List.get?_eq_getElem?] at hrole; simp [hrole])]
              · rw [hknow, List.filter_cons_of_neg (by rw [List.get?_eq_getElem?] at hrole; simp [hrole])]
          | some Role.Doctor =>
              rw [hrole] at hstep
              simp only [Option.some.injEq] at hstep
              subst hstep
              refine ⟨hr, ha, hv, hd, hp, ?_, ?_, ?_⟩
              · rw [hpend, List.filter_cons_of_neg (by rw [List.get?_eq_getElem?] at hrole; simp [hrole])]
              · rw [hprot, List.filter_cons_of_pos (by rw [List.get?_eq_getElem?] at hrole; simp [hrole])]
                rfl
              · rw [hknow, List.filter_cons_of_neg (by rw [List.get?_eq_getElem?] at hrole; simp [hrole])]
          | some Role.Seer =>
              rw [hrole] at hstep
              match hlearn : st0.g.learn_identity a.selector a.selected with
              | none => rw [hlearn] at hstep; cases hstep
              | some g2 =>
                  rw [hlearn] at hstep
                  simp only [Option.some.injEq] at hstep
                  subst hstep
                  have hg2 := learn_identity_eq _ _ _ _ hlearn
                  subst hg2
                  refine ⟨hr, ha, hv, hd, hp, ?_, ?_, ?_⟩
                  · rw [hpend, List.filter_cons_of_neg (by rw [List.get?_eq_getElem?] at hrole; simp [hrole])]
                  · rw [hprot, List.filter_cons_of_neg (by rw [List.get?_eq_getElem?] at hrole; simp [hrole])]
                  · rw [hknow, List.filter_cons_of_pos (by rw [List.get?_eq_getElem?] at hrole; simp [hrole])]
                    rfl

end WW

/-- C8: in a night round whose collected actions contain exactly one
werewolf action (target `t`), exactly one doctor action (protecting `p`) and
exactly one seer action (`sa` inspecting `sTgt`), exactly one vote map is
appended to the voted history, the single pending kill is resolved — the
werewolf's target dies iff it is not the doctor's protected agent — and the
seer's known identities gain the inspected agent. -/
theorem C8_night_resolution (g g' : WW.Werewolf) (acts : List WW.Action)
    (w t d p sa sTgt : Nat)
    (h : WW.phase_night_apply g acts = some g')
    (hww : acts.filter
        (fun a => g.roles.get? a.selector = some WW.Role.Werewolf) = [⟨w, t⟩])
    (hdoc : acts.filter
        (fun a => g.roles.get? a.selector = some WW.Role.Doctor) = [⟨d, p⟩])
    (hseer : acts.filter
        (fun a => g.roles.get? a.selector = some WW.Role.Seer) = [⟨sa, sTgt⟩]) :
    (∃ v, g'.voted = g.voted ++ [v]) ∧
    (t ≠ p → g'.alive = g.alive.set t false) ∧
    (t = p → g'.alive = g.alive) ∧
    g'.known_identity = WW.Werewolf.dictMap g.known_identity sa (insert sTgt) ∧
    g'.roles = g.roles ∧ g'.day = g.day ∧ g'.phase = g.phase := by
  unfold WW.phase_night_apply at h
  match hloop : WW.nightLoop ⟨[], none, none, g⟩ acts with
  | none => rw [hloop] at h; cases h
  | some st =>
      rw [hloop] at h
      dsimp only at h
      obtain ⟨hr, ha, hv, hd, hp, hpend, hprot, hknow⟩ :=
        WW.nightLoop_spec acts ⟨[], none, none, g⟩ st hloop
      have hr' : st.g.roles = g.roles := hr
      have ha' : st.g.alive = g.alive := ha
      have hv' : st.g.voted = g.voted := hv
      have hd' : st.g.day = g.day := hd
      have hp' : st.g.phase = g.phase := hp
      have hpend' : st.pending_kill = some t := by
        have : st.pending_kill =
            ((acts.filter
                (fun a => g.roles.get? a.selector = some WW.Role.Werewolf)).foldl
              (fun _ a => some a.selected) none) := hpend
        rw [hww] at this
        simpa using this
      have hprot' : st.protectedAgent = some p := by
        have : st.protectedAgent =
            ((acts.filter
                (fun a => g.roles.get? a.selector = some WW.Role.Doctor)).foldl
              (fun _ a => some a.selected) none) := hprot
        rw [hdoc] at this
        simpa using this
      have hknow' : st.g.known_identity =
          WW.Werewolf.dictMap g.known_identity sa (insert sTgt) := by
        have : st.g.known_identity =
            ((acts.filter
                (fun a => g.roles.get? a.selector = some WW.Role.Seer)).foldl
              (fun kn a => WW.Werewolf.dictMap kn a.selector (insert a.selected))
              g.known_identity) := hknow
        rw [hseer] at this
        simpa using this
      rw [hpend', hprot'] at h
      dsimp only at h
      by_cases htp : t = p
      · subst htp
        simp only [ne_eq, not_true_eq_false, if_false, ite_false, Option.some.injEq] at h
        subst h
        refine ⟨⟨st.votes, by rw [hv']⟩, fun hc => absurd rfl hc, fun _ => ha', hknow',
          hr', hd', hp'⟩
      · have hne : (some t ≠ some p) = True := by
          simp [htp]
        rw [if_pos (by simpa using htp)] at h
        unfold WW.Werewolf.kill at h
        by_cases hlt : t < ({ st.g with voted := st.g.voted ++ [st.votes] } :
            WW.Werewolf).alive.length
        · rw [if_pos hlt] at h
          simp only [Option.some.injEq] at h
          subst h
          refine ⟨⟨st.votes, by rw [hv']⟩, fun _ => by rw [ha'], fun hc => absurd hc htp,
            hknow', hr', hd', hp'⟩
        · rw [if_neg hlt] at h
          cases h

/-- The night round of `gEx4` with the werewolf targeting agent 3, the seer
inspecting agent 0 and the doctor protecting agent 1. -/
def gEx4Night : WW.Werewolf :=
  { roles := [WW.Role.Werewolf, WW.Role.Seer, WW.Role.Doctor, WW.Role.Villager],
    alive := [true, true, true, false],
    known_identity := [(0, {0}), (1, {0, 1}), (2, {2}), (3, {3})],
    voted := [[(0, some 3), (1, some 0), (2, some 1)]],
    day := 1 }

theorem C8_night_resolution_witness :
    WW.phase_night_apply gEx4 [⟨0, 3⟩, ⟨1, 0⟩, ⟨2, 1⟩] = some gEx4Night ∧
      gEx4Night.alive = gEx4.alive.set 3 false :=
  ⟨rfl,
    (C8_night_resolution gEx4 gEx4Night [⟨0, 3⟩, ⟨1, 0⟩, ⟨2, 1⟩] 0 3 2 1 1 0
      (by decide) (by decide) (by decide) (by decide)).2.1 (by decide)⟩

/-- C4 counterexample: in the day tally of the four-agent game `gEx4`,
targets `1` and `0` tie with two votes each, yet agent `1` (the tied target
first encountered in vote order) is eliminated — the alive vector changes,
contradicting the claim that a tie eliminates nobody. -/
theorem C4_tie_eliminates_counterexample :
    (WW.phase_day_apply gEx4
        [(0, some 1), (1, some 0), (2, some 1), (3, some 0)]).map WW.Werewolf.alive =
      some [true, false, true, true] ∧
    ((0 : Nat), some (1 : Nat)).2 ∈
        ([(0, some 1), (1, some 0), (2, some 1), (3, some 0)] :
          List (Nat × Option Nat)).map Prod.snd ∧
    (([(0, some 1), (1, some 0), (2, some 1), (3, some 0)] :
        List (Nat × Option Nat)).map Prod.snd).count (some 1) =
      (([(0, some 1), (1, some 0), (2, some 1), (3, some 0)] :
        List (Nat × Option Nat)).map Prod.snd).count (some 0) ∧
    ¬ (WW.phase_day_apply gEx4
        [(0, some 1), (1, some 0), (2, some 1), (3, some 0)]).map WW.Werewolf.alive =
      some gEx4.alive := by
  refine ⟨?_, ?_, ?_, ?_⟩ <;> decide

/-- C4 (amended): after the votes are collected, the vote map is appended and
the day advances; the eliminated agent is `most_common(1)`'s plurality value
— the highest-count vote value first encountered in vote order; an agent
with strictly the most votes is eliminated; a `None` plurality value (or an
empty vote map) eliminates nobody; on a tie the first-encountered tied value
decides, so an agent can be eliminated. -/
theorem C4_day_plurality (g g' : WW.Werewolf) (votes : List (Nat × Option Nat))
    (h : WW.phase_day_apply g votes = some g') :
    g'.voted = g.voted ++ [votes] ∧
    g'.day = g.day + 1 ∧
    g'.roles = g.roles ∧
    (votes = [] → g'.alive = g.alive) ∧
    (WW.mostCommon1 (votes.map Prod.snd) = some none → g'.alive = g.alive) ∧
    (∀ v, votes ≠ [] → WW.mostCommon1 (votes.map Prod.snd) = some (some v) →
      g'.alive = g.alive.set v false) ∧
    (∀ v, votes ≠ [] →
      some v ∈ votes.map Prod.snd →
      (∀ u ∈ votes.map Prod.snd, u ≠ some v →
        (votes.map Prod.snd).count u < (votes.map Prod.snd).count (some v)) →
      g'.alive = g.alive.set v false) := by
  unfold WW.phase_day_apply at h
  by_cases hv : votes = []
  · subst hv
    simp only [if_pos, Option.map_some', Option.some.injEq] at h
    subst h
    refine ⟨rfl, rfl, rfl, fun _ => rfl, fun _ => rfl, ?_, ?_⟩
    · intro v hne _
      exact absurd rfl hne
    · intro v hne _ _
      exact absurd rfl hne
  · simp only [hv, if_neg, if_false] at h
    match hmc : WW.mostCommon1 (votes.map Prod.snd) with
    | none =>
        rw [hmc] at h
        simp only [Option.map_some', Option.some.injEq] at h
        subst h
        refine ⟨rfl, rfl, rfl, fun hc => absurd hc hv, fun hc => ?_, fun v _ hc => ?_, ?_⟩
        · simp at hc
        · simp at hc
        · intro v _ hmem hmax
          have hpick := WW.mostCommon1_of_strict_max _ _ hmem hmax
          rw [hmc] at hpick
          simp at hpick
    | some none =>
        rw [hmc] at h
        simp only [Option.map_some', Option.some.injEq] at h
        subst h
        refine ⟨rfl, rfl, rfl, fun hc => absurd hc hv, fun _ => rfl, fun v _ hc => ?_, ?_⟩
        · simp at hc
        · intro v _ hmem hmax
          have hpick := WW.mostCommon1_of_strict_max _ _ hmem hmax
          rw [hmc] at hpick
          simp at hpick
    | some (some w) =>
        rw [hmc] at h
        unfold WW.Werewolf.kill at h
        by_cases hlt : w < g.alive.length
        · simp only [hlt, if_pos, Option.map_some', Option.some.injEq] at h
          subst h
          refine ⟨rfl, rfl, rfl, fun hc => absurd hc hv, fun hc => ?_, ?_, ?_⟩
          · simp at hc
          · intro v _ hc
            simp only [Option.some.injEq] at hc
            subst hc
            rfl
          · intro v _ hmem hmax
            have hpick := WW.mostCommon1_of_strict_max _ _ hmem hmax
            rw [hmc] at hpick
            simp only [Option.some.injEq] at hpick
            subst hpick
            rfl
        · simp [hlt] at h

theorem C4_day_plurality_witness :
    WW.phase_day_apply gEx4 [(0, some 2), (1, some 2), (2, some 0), (3, some 2)] =
      some gEx4Day ∧ gEx4Day.day = gEx4.day + 1 :=
  ⟨by decide,
    (C4_day_plurality gEx4 gEx4Day [(0, some 2), (1, some 2), (2, some 0), (3, some 2)]
      (by decide)).2.1⟩

/-- C5: the transition relation of both machine variants is exactly
`next : Start→Night, Night→Day, Day→Night` and `finish : Night→End, Day→End`
(respectively `next : Night↔Day`, `finish : Night/Day→Finished`); `next` and
`finish` raise a `TransitionError` from the terminal state, `finish` also from
`Start`, and the terminal state has no outgoing transitions in either
variant. -/
theorem C5_transition_relation :
    (WW.machineNext WW.Phase.Start = Except.ok WW.Phase.Night ∧
      WW.machineNext WW.Phase.Night = Except.ok WW.Phase.Day ∧
      WW.machineNext WW.Phase.Day = Except.ok WW.Phase.Night ∧
      WW.machineNext WW.Phase.End = Except.error {} ∧
      WW.machineFinish WW.Phase.Night = Except.ok WW.Phase.End ∧
      WW.machineFinish WW.Phase.Day = Except.ok WW.Phase.End ∧
      WW.machineFinish WW.Phase.Start = Except.error {} ∧
      WW.machineFinish WW.Phase.End = Except.error {}) ∧
    (SM.machineNext SM.MState.night = Except.ok SM.MState.day ∧
      SM.machineNext SM.MState.day = Except.ok SM.MState.night ∧
      SM.machineNext SM.MState.finished_state = Except.error {} ∧
      SM.machineFinish SM.MState.night = Except.ok SM.MState.finished_state ∧
      SM.machineFinish SM.MState.day = Except.ok SM.MState.finished_state ∧
      SM.machineFinish SM.MState.finished_state = Except.error {}) := by
  exact ⟨⟨rfl, rfl, rfl, rfl, rfl, rfl, rfl, rfl⟩, rfl, rfl, rfl, rfl, rfl, rfl⟩

namespace WW

/-- The `Observation` message of `forum/worlds/werewolf/__init__.py`. -/
structure Observation where
  day : Nat
  phase : Phase
  alive : List Bool
  known_role : List (Nat × Role)
  voted : List (List (Nat × Option Nat))
deriving DecidableEq

/-- Pydantic validity of an `Observation`: `day` is a `PositiveInt`, and the
dicts have distinct keys (Python dicts always do). -/
def Observation.valid (o : Observation) : Prop :=
  1 ≤ o.day ∧ (o.known_role.map Prod.fst).Nodup ∧
    ∀ d ∈ o.voted, (d.map Prod.fst).Nodup

/-- Pydantic validity of a `Werewolf` message: `day` is a `PositiveInt`, the
dicts have distinct keys, and the `agent_quantity` model validator holds
(`len(roles) == len(alive) == len(known_identity)`). -/
def Werewolf.valid (g : Werewolf) : Prop :=
  1 ≤ g.day ∧ (g.known_identity.map Prod.fst).Nodup ∧
    (∀ d ∈ g.voted, (d.map Prod.fst).Nodup) ∧
    g.roles.length = g.alive.length ∧ g.roles.length = g.known_identity.length

/-- The JSON value model for the wire format produced by
`model_dump_json` and read by `json.loads` / `model_validate_json`. -/
inductive Json
  | null
  | bool (b : Bool)
  | num (n : Int)
  | str (s : String)
  | arr (xs : List Json)
  | obj (fields : List (String × Json))

/-- `str(enum)` for `Phase` (a `StrEnum`). -/
def Phase.toStr : Phase → String
  | Phase.Start => "Start"
  | Phase.Night => "Night"
  | Phase.Day => "Day"
  | Phase.End => "End"

/-- Pydantic validation of a string against `Phase`. -/
def Phase.fromStr? (s : String) : Option Phase :=
  if s = "Start" then some Phase.Start
  else if s = "Night" then some Phase.Night
  else if s = "Day" then some Phase.Day
  else if s = "End" then some Phase.End
  else none

/-- `str(enum)` for `Role`. -/
def Role.toStr : Role → String
  | Role.Werewolf => "Werewolf"
  | Role.Villager => "Villager"
  | Role.Seer => "Seer"
  | Role.Doctor => "Doctor"

/-- Pydantic validation of a string against `Role`. -/
def Role.fromStr? (s : String) : Option Role :=
  if s = "Werewolf" then some Role.Werewolf
  else if s = "Villager" then some Role.Villager
  else if s = "Seer" then some Role.Seer
  else if s = "Doctor" then some Role.Doctor
  else none

/-- `str(enum)` for `Team`. -/
def Team.toStr : Team → String
  | Team.Werewolves => "Werewolves"
  | Team.Villagers => "Villagers"

/-- A non-negative int as a JSON number. -/
def natJson (n : Nat) : Json := Json.num (n : Int)

/-- A decimal digit as a character, for JSON dict keys (`str(int)`). -/
def digitChar (d : Nat) : Char := Char.ofNat (48 + d)

/-- A character back to a decimal digit. -/
def charDigit (c : Char) : Option Nat :=
  if 48 ≤ c.toNat ∧ c.toNat ≤ 57 then some (c.toNat - 48) else none

/-- `str(n)`: pydantic writes non-negative int dict keys in decimal. -/
def natToKey (n : Nat) : String :=
  if n = 0 then "0" else { data := ((Nat.digits 10 n).map digitChar).reverse }

/-- Pydantic coercion of a JSON object key back to a non-negative int. -/
def keyToNat (s : String) : Option Nat :=
  match s.data.mapM charDigit with
  | none => none
  | some ds => if s.data.isEmpty then none else some (Nat.ofDigits 10 ds.reverse)

theorem charDigit_digitChar (d : Nat) (h : d < 10) : charDigit (digitChar d) = some d := by
  interval_cases d <;> decide

theorem mapM_map_eq_some {α β : Type} (f : β → Option α) (g : α → β) :
    ∀ (l : List α), (∀ x ∈ l, f (g x) = some x) → (l.map g).mapM f = some l := by
  intro l
  induction l with
  | nil => intro _; rfl
  | cons a as ih =>
      intro hinv
      simp only [List.map_cons, List.mapM_cons]
      rw [hinv a (List.mem_cons_self a as), ih (fun x hx => hinv x (List.mem_cons_of_mem _ hx))]
      rfl

theorem keyToNat_natToKey (n : Nat) : keyToNat (natToKey n) = some n := by
  by_cases h0 : n = 0
  · subst h0
    decide
  · unfold natToKey
    rw [if_neg h0]
    unfold keyToNat
    have hmm : (((Nat.digits 10 n).map digitChar).reverse).mapM charDigit =
        some (Nat.digits 10 n).reverse := by
      rw [← List.map_reverse]
      apply mapM_map_eq_some
      intro d hd
      exact charDigit_digitChar d
        (Nat.digits_lt_base (by omega) (List.mem_reverse.mp hd))
    simp only [hmm]
    have hne : Nat.digits 10 n ≠ [] := Nat.digits_ne_nil_iff_ne_zero.mpr h0
    have hnonempty : ((((Nat.digits 10 n).map digitChar).reverse).isEmpty) = false := by
      simp [List.isEmpty_iff, hne]
    rw [hnonempty]
    simp only [Bool.false_eq_true, if_false, List.reverse_reverse, ite_false]
    rw [Nat.ofDigits_digits]

end WW

namespace WW

/-- Serialize an optional agent index (`None` dict values are kept:
`exclude_none` only drops model fields, not dict values). -/
def encodeOptNat : Option Nat → Json
  | none => Json.null
  | some k => Json.num k

/-- Serialize one per-round vote map (int keys become decimal strings). -/
def encodeVotedMap (d : List (Nat × Option Nat)) : Json :=
  Json.obj (d.map (fun kv => (natToKey kv.1, encodeOptNat kv.2)))

/-- `model_dump_json(exclude_none=True)` of an `Observation`, declared
fields in order then the computed `type` tag. -/
def encodeObservationFields (o : Observation) : List (String × Json) :=
  [("day", Json.num o.day),
   ("phase", Json.str o.phase.toStr),
   ("alive", Json.arr (o.alive.map Json.bool)),
   ("known_role",
     Json.obj (o.known_role.map (fun kv => (natToKey kv.1, Json.str kv.2.toStr)))),
   ("voted", Json.arr (o.voted.map encodeVotedMap)),
   ("type", Json.str "Observation")]

/-- The encoded `Observation` as a JSON object. -/
def encodeObservation (o : Observation) : Json :=
  Json.obj (encodeObservationFields o)

/-- `model_dump_json(exclude_none=True)` of an `Action`. -/
def encodeActionFields (a : Action) : List (String × Json) :=
  [("selector", Json.num a.selector),
   ("selected", Json.num a.selected),
   ("type", Json.str "Action")]

/-- The encoded `Action` as a JSON object. -/
def encodeAction (a : Action) : Json :=
  Json.obj (encodeActionFields a)

/-- `model_dump_json(exclude_none=True)` of a `Werewolf`: declared fields,
then the computed `winner` (omitted when `None`, by `exclude_none`) and
`type`.  Python serializes each `known_identity` set in unspecified order;
the model uses ascending order. -/
def encodeWerewolfFields (g : Werewolf) : List (String × Json) :=
  ([("day", Json.num g.day),
      ("phase", Json.str g.phase.toStr),
      ("roles", Json.arr (g.roles.map (fun r => Json.str r.toStr))),
      ("alive", Json.arr (g.alive.map Json.bool)),
      ("known_identity",
        Json.obj (g.known_identity.map
          (fun kv => (natToKey kv.1,
            Json.arr ((kv.2.sort (· ≤ ·)).map natJson))))),
      ("voted", Json.arr (g.voted.map encodeVotedMap))] ++
     (match g.winner with
      | none => []
      | some tm => [("winner", Json.str tm.toStr)]) ++
     [("type", Json.str "Werewolf")])

/-- The encoded `Werewolf` as a JSON object. -/
def encodeWerewolf (g : Werewolf) : Json :=
  Json.obj (encodeWerewolfFields g)

/-- Field lookup in a parsed JSON object. -/
def getField (j : Json) (k : String) : Option Json :=
  match j with
  | Json.obj fields => fields.lookup k
  | _ => none

/-- Validate a JSON value as a `PositiveInt`. -/
def decodePosInt : Json → Option Nat
  | Json.num n => if 1 ≤ n then some n.toNat else none
  | _ => none

/-- Validate a JSON value as an `AgentIndex` (`int`, `ge=0`). -/
def decodeNat : Json → Option Nat
  | Json.num n => if 0 ≤ n then some n.toNat else none
  | _ => none

/-- Validate a JSON value as a `bool`. -/
def decodeBool : Json → Option Bool
  | Json.bool b => some b
  | _ => none

/-- Validate a JSON value as an `Optional[AgentIndex]`. -/
def decodeOptNat : Json → Option (Option Nat)
  | Json.null => some none
  | Json.num n => if 0 ≤ n then some (some n.toNat) else none
  | _ => none

/-- Validate a JSON value as a `Phase`. -/
def decodePhase : Json → Option Phase
  | Json.str s => Phase.fromStr? s
  | _ => none

/-- Validate a JSON value as a `Role`. -/
def decodeRole : Json → Option Role
  | Json.str s => Role.fromStr? s
  | _ => none

/-- Validate a JSON object as a dict with int keys. -/
def decodeDict {α : Type} (decodeVal : Json → Option α) : Json → Option (List (Nat × α))
  | Json.obj fields =>
      fields.mapM (fun kv => do
        let k ← keyToNat kv.1
        let v ← decodeVal kv.2
        pure (k, v))
  | _ => none

/-- Validate a JSON array elementwise. -/
def decodeArr {α : Type} (f : Json → Option α) : Json → Option (List α)
  | Json.arr xs => xs.mapM f
  | _ => none

/-- Validate a JSON value as a `set[AgentIndex]` (a JSON array; Python
`set()` deduplicates). -/
def decodeFinset : Json → Option (Finset Nat)
  | Json.arr xs => (xs.mapM decodeNat).map List.toFinset
  | _ => none

/-- `Observation.model_validate_json`: extract and validate each declared
field; extra fields (such as the `type` tag) are ignored. -/
def decodeObservation (j : Json) : Option Observation := do
  let day ← getField j "day" >>= decodePosInt
  let phase ← getField j "phase" >>= decodePhase
  let alive ← getField j "alive" >>= decodeArr decodeBool
  let known_role ← getField j "known_role" >>= decodeDict decodeRole
  let voted ← getField j "voted" >>= decodeArr (decodeDict decodeOptNat)
  pure { day := day, phase := phase, alive := alive, known_role := known_role,
         voted := voted }

/-- `Action.model_validate_json`. -/
def decodeAction (j : Json) : Option Action := do
  let selector ← getField j "selector" >>= decodeNat
  let selected ← getField j "selected" >>= decodeNat
  pure { selector := selector, selected := selected }

/-- `Werewolf.model_validate_json`: fields, then the `agent_quantity` model
validator (`len(roles) == len(alive) == len(known_identity)`). -/
def decodeWerewolf (j : Json) : Option Werewolf := do
  let day ← getField j "day" >>= decodePosInt
  let phase ← getField j "phase" >>= decodePhase
  let roles ← getField j "roles" >>= decodeArr decodeRole
  let alive ← getField j "alive" >>= decodeArr decodeBool
  let known_identity ← getField j "known_identity" >>= decodeDict decodeFinset
  let voted ← getField j "voted" >>= decodeArr (decodeDict decodeOptNat)
  if roles.length = alive.length ∧ roles.length = known_identity.length then
    pure { day := day, phase := phase, roles := roles, alive := alive,
           known_identity := known_identity, voted := voted }
  else none

/-- The decode failure modes of `Codec.decode` (each raised after logging,
except a missing `type` key, whose `KeyError` escapes before the logged
`try` block; logging is an I/O effect outside this model). -/
inductive DecodeError
  | invalidEncoding
  | invalidFormat
  | missingType
  | unknownType
  | schemaViolation
deriving DecidableEq, Repr

/-- A decoded message: one of the shapes registered in the `Codec`. -/
inductive Msg
  | observation (o : Observation)
  | action (a : Action)
  | werewolf (w : Werewolf)
deriving DecidableEq

/-- The `Codec` registry: `__init_subclass__` registers every `Message`
subclass under its qualified name — `Observation`, `Action` and `Werewolf`
in this repository. -/
def codecRegistry : List (String × (Json → Option Msg)) :=
  [("Observation", fun j => (decodeObservation j).map Msg.observation),
   ("Action", fun j => (decodeAction j).map Msg.action),
   ("Werewolf", fun j => (decodeWerewolf j).map Msg.werewolf)]

/-- `Codec.encode`: `model_dump_json(exclude_none=True)` of the message. -/
def codecEncode : Msg → Json
  | Msg.observation o => encodeObservation o
  | Msg.action a => encodeAction a
  | Msg.werewolf w => encodeWerewolf w

/-- `Codec.decode` on a payload that parsed as JSON: read `s["type"]`
(`KeyError` when absent or the payload is not an object), look the tag up in
the registry (`KeyError` → `UnknownType`), then validate the payload against
the shape (`ValidationError` → `SchemaViolation`). -/
def codecDecode (j : Json) : Except DecodeError Msg :=
  match j with
  | Json.obj fields =>
      match fields.lookup "type" with
      | none => Except.error DecodeError.missingType
      | some (Json.str t) =>
          match codecRegistry.lookup t with
          | none => Except.error DecodeError.unknownType
          | some dec =>
              match dec j with
              | none => Except.error DecodeError.schemaViolation
              | some m => Except.ok m
      | some _ => Except.error DecodeError.unknownType
  | _ => Except.error DecodeError.invalidFormat

/-- Validity of a message instance (the pydantic field and model
validators). -/
def Msg.valid : Msg → Prop
  | Msg.observation o => o.valid
  | Msg.action _ => True
  | Msg.werewolf w => w.valid

end WW

namespace WW

theorem phaseFromStr_toStr (p : Phase) : Phase.fromStr? p.toStr = some p := by
  cases p <;> rfl

theorem roleFromStr_toStr (r : Role) : Role.fromStr? r.toStr = some r := by
  cases r <;> rfl

theorem decodeOptNat_encodeOptNat (v : Option Nat) :
    decodeOptNat (encodeOptNat v) = some v := by
  cases v with
  | none => rfl
  | some k => simp [encodeOptNat, decodeOptNat]

theorem decodeDict_encodeVotedMap (d : List (Nat × Option Nat)) :
    decodeDict decodeOptNat (encodeVotedMap d) = some d := by
  simp only [encodeVotedMap, decodeDict]
  apply mapM_map_eq_some
  intro kv _
  simp [keyToNat_natToKey, decodeOptNat_encodeOptNat]

theorem decodeFinset_sorted (s : Finset Nat) :
    decodeFinset (Json.arr ((s.sort (· ≤ ·)).map natJson)) = some s := by
  simp only [decodeFinset]
  rw [mapM_map_eq_some decodeNat natJson _ (fun i _ => by simp [decodeNat, natJson])]
  simp [Finset.sort_toFinset]

theorem decodeObservation_encodeObservation (o : Observation) (h : o.valid) :
    decodeObservation (encodeObservation o) = some o := by
  obtain ⟨hday, -, -⟩ := h
  have h1 : getField (encodeObservation o) "day" >>= decodePosInt = some o.day := by
    show decodePosInt (Json.num o.day) = some o.day
    simp only [decodePosInt]
    rw [if_pos (by exact_mod_cast hday)]
    simp
  have h2 : getField (encodeObservation o) "phase" >>= decodePhase = some o.phase := by
    show Phase.fromStr? o.phase.toStr = some o.phase
    exact phaseFromStr_toStr o.phase
  have h3 : getField (encodeObservation o) "alive" >>= decodeArr decodeBool
      = some o.alive := by
    show (o.alive.map Json.bool).mapM decodeBool = some o.alive
    exact mapM_map_eq_some _ _ _ (fun b _ => rfl)
  have h4 : getField (encodeObservation o) "known_role" >>= decodeDict decodeRole
      = some o.known_role := by
    show ((o.known_role.map (fun kv => (natToKey kv.1, Json.str kv.2.toStr))).mapM
      (fun kv => do
        let k ← keyToNat kv.1
        let v ← decodeRole kv.2
        pure (k, v))) = some o.known_role
    apply mapM_map_eq_some
    intro kv _
    simp [keyToNat_natToKey, decodeRole, roleFromStr_toStr]
  have h5 : getField (encodeObservation o) "voted" >>=
      decodeArr (decodeDict decodeOptNat) = some o.voted := by
    show (o.voted.map encodeVotedMap).mapM (decodeDict decodeOptNat) = some o.voted
    exact mapM_map_eq_some _ _ _ (fun d _ => decodeDict_encodeVotedMap d)
  simp only [decodeObservation]
  rw [h1, h2, h3, h4, h5]
  rfl

theorem decodeAction_encodeAction (a : Action) :
    decodeAction (encodeAction a) = some a := by
  have h1 : getField (encodeAction a) "selector" >>= decodeNat = some a.selector := by
    show decodeNat (Json.num a.selector) = some a.selector
    simp [decodeNat]
  have h2 : getField (encodeAction a) "selected" >>= decodeNat = some a.selected := by
    show decodeNat (Json.num a.selected) = some a.selected
    simp [decodeNat]
  simp only [decodeAction]
  rw [h1, h2]
  rfl

theorem decodeWerewolf_encodeWerewolf (g : Werewolf) (h : g.valid) :
    decodeWerewolf (encodeWerewolf g) = some g := by
  obtain ⟨hday, -, -, hlen1, hlen2⟩ := h
  have h1 : getField (encodeWerewolf g) "day" >>= decodePosInt = some g.day := by
    show decodePosInt (Json.num g.day) = some g.day
    simp only [decodePosInt]
    rw [if_pos (by exact_mod_cast hday)]
    simp
  have h2 : getField (encodeWerewolf g) "phase" >>= decodePhase = some g.phase := by
    show Phase.fromStr? g.phase.toStr = some g.phase
    exact phaseFromStr_toStr g.phase
  have h3 : getField (encodeWerewolf g) "roles" >>= decodeArr decodeRole
      = some g.roles := by
    show (g.roles.map (fun r => Json.str r.toStr)).mapM decodeRole = some g.roles
    exact mapM_map_eq_some _ _ _ (fun r _ => roleFromStr_toStr r)
  have h4 : getField (encodeWerewolf g) "alive" >>= decodeArr decodeBool
      = some g.alive := by
    show (g.alive.map Json.bool).mapM decodeBool = some g.alive
    exact mapM_map_eq_some _ _ _ (fun b _ => rfl)
  have h5 : getField (encodeWerewolf g) "known_identity" >>= decodeDict decodeFinset
      = some g.known_identity := by
    show ((g.known_identity.map
        (fun kv => (natToKey kv.1,
          Json.arr ((kv.2.sort (· ≤ ·)).map natJson)))).mapM
      (fun kv => do
        let k ← keyToNat kv.1
        let v ← decodeFinset kv.2
        pure (k, v))) = some g.known_identity
    apply mapM_map_eq_some
    intro kv _
    simp [keyToNat_natToKey, decodeFinset_sorted]
  have h6 : getField (encodeWerewolf g) "voted" >>=
      decodeArr (decodeDict decodeOptNat) = some g.voted := by
    show (g.voted.map encodeVotedMap).mapM (decodeDict decodeOptNat) = some g.voted
    exact mapM_map_eq_some _ _ _ (fun d _ => decodeDict_encodeVotedMap d)
  simp only [decodeWerewolf]
  rw [h1, h2, h3, h4, h5, h6]
  show (if g.roles.length = g.alive.length ∧
      g.roles.length = g.known_identity.length then
        some { day := g.day, phase := g.phase, roles := g.roles, alive := g.alive,
               known_identity := g.known_identity, voted := g.voted }
      else none) = some g
  rw [if_pos ⟨hlen1, hlen2⟩]

theorem codecDecode_obj_registered (fields : List (String × Json)) (t : String)
    (dec : Json → Option Msg)
    (htag : fields.lookup "type" = some (Json.str t))
    (hreg : codecRegistry.lookup t = some dec) :
    codecDecode (Json.obj fields) =
      (match dec (Json.obj fields) with
       | none => Except.error DecodeError.schemaViolation
       | some m => Except.ok m) := by
  simp only [codecDecode, htag, hreg]

end WW

/-- C2: for every message shape registered in the Codec — `Observation`,
`Action` and `Werewolf` — and every valid instance `m` (including
observations whose `voted` maps hold `None` values: `exclude_none` omits
only `None`-valued model fields, not dict entries), decoding the encoding
returns `m` itself. -/
theorem C2_codec_roundtrip (m : WW.Msg) (h : m.valid) :
    WW.codecDecode (WW.codecEncode m) = Except.ok m := by
  cases m with
  | observation o =>
      have hdec := WW.decodeObservation_encodeObservation o h
      show WW.codecDecode (WW.Json.obj (WW.encodeObservationFields o)) =
        Except.ok (WW.Msg.observation o)
      rw [WW.codecDecode_obj_registered (WW.encodeObservationFields o) "Observation"
        (fun j => (WW.decodeObservation j).map WW.Msg.observation) rfl rfl]
      have hdec' : WW.decodeObservation (WW.Json.obj (WW.encodeObservationFields o))
          = some o := hdec
      rw [hdec']
      rfl
  | action a =>
      have hdec := WW.decodeAction_encodeAction a
      show WW.codecDecode (WW.Json.obj (WW.encodeActionFields a)) =
        Except.ok (WW.Msg.action a)
      rw [WW.codecDecode_obj_registered (WW.encodeActionFields a) "Action"
        (fun j => (WW.decodeAction j).map WW.Msg.action) rfl rfl]
      have hdec' : WW.decodeAction (WW.Json.obj (WW.encodeActionFields a)) = some a := hdec
      rw [hdec']
      rfl
  | werewolf w =>
      have hdec := WW.decodeWerewolf_encodeWerewolf w h
      show WW.codecDecode (WW.Json.obj (WW.encodeWerewolfFields w)) =
        Except.ok (WW.Msg.werewolf w)
      have htag : (WW.encodeWerewolfFields w).lookup "type"
          = some (WW.Json.str "Werewolf") := by
        unfold WW.encodeWerewolfFields
        cases w.winner <;> rfl
      rw [WW.codecDecode_obj_registered (WW.encodeWerewolfFields w) "Werewolf"
        (fun j => (WW.decodeWerewolf j).map WW.Msg.werewolf) htag rfl]
      have hdec' : WW.decodeWerewolf (WW.Json.obj (WW.encodeWerewolfFields w))
          = some w := hdec
      rw [hdec']
      rfl

theorem C2_codec_roundtrip_witness :
    (WW.Msg.observation
        { day := 1, phase := WW.Phase.Day, alive := [true, false],
          known_role := [(0, WW.Role.Seer)],
          voted := [[(0, some 1), (1, none)]] }).valid ∧
      WW.codecDecode (WW.codecEncode (WW.Msg.observation
        { day := 1, phase := WW.Phase.Day, alive := [true, false],
          known_role := [(0, WW.Role.Seer)],
          voted := [[(0, some 1), (1, none)]] })) =
        Except.ok (WW.Msg.observation
          { day := 1, phase := WW.Phase.Day, alive := [true, false],
            known_role := [(0, WW.Role.Seer)],
            voted := [[(0, some 1), (1, none)]] }) :=
  ⟨by constructor <;> simp [WW.Observation.valid],
    C2_codec_roundtrip _ (by constructor <;> simp [WW.Observation.valid])⟩

/-- C7: decoding a payload that is valid JSON carrying a `type` tag that was
never registered in the Codec fails with the `UnknownType` decode error
(the registry lookup's `KeyError` is raised after logging), and no message
is returned. -/
theorem C7_unknown_type (fields : List (String × WW.Json)) (t : String)
    (htag : fields.lookup "type" = some (WW.Json.str t))
    (hreg : WW.codecRegistry.lookup t = none) :
    WW.codecDecode (WW.Json.obj fields) = Except.error WW.DecodeError.unknownType ∧
      ∀ m : WW.Msg, WW.codecDecode (WW.Json.obj fields) ≠ Except.ok m := by
  have hdec : WW.codecDecode (WW.Json.obj fields)
      = Except.error WW.DecodeError.unknownType := by
    simp only [WW.codecDecode, htag, hreg]
  exact ⟨hdec, fun m hc => by rw [hdec] at hc; cases hc⟩

theorem C7_unknown_type_witness :
    ([("type", WW.Json.str "GameMessage"), ("command", WW.Json.str "next")] :
        List (String × WW.Json)).lookup "type" = some (WW.Json.str "GameMessage") ∧
      WW.codecDecode
          (WW.Json.obj [("type", WW.Json.str "GameMessage"), ("command", WW.Json.str "next")])
        = Except.error WW.DecodeError.unknownType :=
  ⟨rfl,
    (C7_unknown_type [("type", WW.Json.str "GameMessage"), ("command", WW.Json.str "next")]
      "GameMessage" rfl rfl).1⟩
